/-
Verification of the spot-hinta.fi price-series client (`spothinta_api`).

The Python sources are embedded shallowly:

* An aware `datetime` carrying a fixed UTC offset (as produced by
  `datetime.strptime(..., "%Y-%m-%dT%H:%M:%S%z")`) is a pair of a wall-clock
  reading and a UTC offset, both measured in minutes (rationals, so that
  sub-minute instants are representable).  Its UTC instant is `wall - offset`;
  aware datetimes compare and hash by instant.
* Timezones (the series' reference timezone and the process-local timezone
  used by `datetime.astimezone()` with no argument) are modelled as fixed
  UTC offsets in minutes.
* Python floats are modelled as rationals; `round(x, 5)` is round-half-to-even
  at five decimal places (`pyround5`).
* A Python `dict[datetime, float]` is its insertion-ordered list of key/value
  pairs; `dict_insert` has CPython semantics (an existing key keeps its
  position and original key object, only the value is updated).
-/
import Mathlib

namespace SpotHinta

/-- Minutes per civil day. -/
def minutesPerDay : ℚ := 1440

/-- An aware `datetime.datetime` with a fixed UTC offset: `wall` is the
wall-clock reading in minutes since the epoch's midnight, `offset` the UTC
offset in minutes. -/
structure Datetime where
  wall : ℚ
  offset : ℚ
deriving DecidableEq, Repr

/-- The UTC instant of an aware datetime; aware datetimes compare by it. -/
def Datetime.instant (d : Datetime) : ℚ := d.wall - d.offset

/-- `datetime.date()`: the civil date (as a day number) of the wall-clock
fields, i.e. the date in the datetime's own UTC offset. -/
def Datetime.date (d : Datetime) : ℤ := (d.wall / minutesPerDay).floor

/-- `datetime + timedelta(minutes=m)`: adds to the wall-clock fields and keeps
the tzinfo; with a fixed offset the instant also moves by `m`. -/
def Datetime.add_minutes (d : Datetime) (m : ℚ) : Datetime :=
  ⟨d.wall + m, d.offset⟩

/-- `datetime.astimezone()` to a timezone of fixed offset `off`: same instant,
wall clock re-expressed in that offset. -/
def Datetime.astimezone (d : Datetime) (off : ℚ) : Datetime :=
  ⟨d.instant + off, off⟩

/-- `datetime.now(tz)` for a fixed-offset timezone, given the current UTC
instant. -/
def datetime_now (tz : ℚ) (nowInstant : ℚ) : Datetime :=
  ⟨nowInstant + tz, tz⟩

/-- Round-half-to-even to the nearest integer, as Python's builtin `round`. -/
def roundHalfEven (x : ℚ) : ℤ :=
  if x - x.floor < 1/2 then x.floor
  else if x - x.floor = 1/2 then (if Even x.floor then x.floor else x.floor + 1)
  else x.floor + 1

/-- Python's `round(x, 5)`: round-half-to-even at five decimal places. -/
def pyround5 (x : ℚ) : ℚ := (roundHalfEven (x * 100000) : ℚ) / 100000

/-- The interval duration of `_timed_value`'s lookup window, in minutes.  This
variant of the code hard-codes `timedelta(hours=1)`, so the sampling resolution
is fixed at 60 minutes. -/
def resolution : ℚ := 60

/-- `models._timed_value(moment, prices)`: scan the mapping in order; the last
entry whose one-hour window `[timestamp, timestamp + 60min)` contains `moment`
supplies the value, rounded to five decimals; `None` when no window matches. -/
def timed_value (moment : Datetime) (prices : List (Datetime × ℚ)) : Option ℚ :=
  prices.foldl
    (fun value tp =>
      if tp.1.instant ≤ moment.instant ∧ moment.instant < (tp.1.add_minutes 60).instant
      then some (pyround5 tp.2) else value)
    none

/-- `models._get_pricetime(prices, max)`: Python's `max(prices, key=prices.get)`
over an insertion-ordered dict — the first key attaining the maximum value wins
(a later key replaces the best only on a strictly greater value). -/
def get_pricetime_max (prices : List (Datetime × ℚ)) : Option Datetime :=
  match prices with
  | [] => none
  | x :: xs => some (xs.foldl (fun best y => if y.2 > best.2 then y else best) x).1

/-- `models._get_pricetime(prices, min)`: Python's `min(prices, key=prices.get)`
over an insertion-ordered dict — the first key attaining the minimum value wins. -/
def get_pricetime_min (prices : List (Datetime × ℚ)) : Option Datetime :=
  match prices with
  | [] => none
  | x :: xs => some (xs.foldl (fun best y => if y.2 < best.2 then y else best) x).1

/-- Python's `min(values)` on a nonempty list (first element as initial
accumulator). The `[]` case is never reached by the callers, which guard on
emptiness first. -/
def pymin : List ℚ → ℚ
  | [] => 0
  | x :: xs => xs.foldl min x

/-- Python's `max(values)` on a nonempty list. -/
def pymax : List ℚ → ℚ
  | [] => 0
  | x :: xs => xs.foldl max x

/-- Python's `x or 0` for an optional float: `None` and `0.0` are falsy. -/
def py_or_zero (v : Option ℚ) : ℚ :=
  match v with
  | none => 0
  | some x => if x = 0 then 0 else x

/-- `models.Electricity`: the insertion-ordered price mapping and the
reference timezone (a fixed UTC offset in minutes). -/
structure Electricity where
  prices : List (Datetime × ℚ)
  time_zone : ℚ
deriving DecidableEq, Repr

namespace Electricity

/-- `Electricity.now_in_timezone()`, with the ambient clock made explicit as
the current UTC instant `nowInstant`. -/
def now_in_timezone (e : Electricity) (nowInstant : ℚ) : Datetime :=
  datetime_now e.time_zone nowInstant

/-- `Electricity.prices_today()`: keep the entries whose `timestamp.date()`
equals `now_in_timezone().astimezone().date()`; `localOffset` is the fixed
offset of the process-local timezone used by the bare `astimezone()`. -/
def prices_today (e : Electricity) (nowInstant localOffset : ℚ) :
    List (Datetime × ℚ) :=
  let today := ((e.now_in_timezone nowInstant).astimezone localOffset).date
  e.prices.foldl (fun acc tp => if tp.1.date = today then acc ++ [tp] else acc) []

/-- `Electricity.prices_tomorrow()`: same with
`(now_in_timezone() + timedelta(days=1)).astimezone().date()`. -/
def prices_tomorrow (e : Electricity) (nowInstant localOffset : ℚ) :
    List (Datetime × ℚ) :=
  let tomorrow :=
    (((e.now_in_timezone nowInstant).add_minutes minutesPerDay).astimezone
      localOffset).date
  e.prices.foldl (fun acc tp => if tp.1.date = tomorrow then acc ++ [tp] else acc) []

/-- `Electricity.price_at_time(moment)`: `_timed_value`, followed by the
source's redundant `if value is not None or value == 0` guard. -/
def price_at_time (e : Electricity) (moment : Datetime) : Option ℚ :=
  let value := timed_value moment e.prices
  if value ≠ none ∨ value = some 0 then value else none

/-- `Electricity.current_price`: `price_at_time(now_in_timezone())`.  The
`localOffset` argument is threaded for uniformity with the day-partition
queries but plays no role here. -/
def current_price (e : Electricity) (nowInstant _localOffset : ℚ) : Option ℚ :=
  e.price_at_time (e.now_in_timezone nowInstant)

/-- `Electricity.lowest_price_today`. -/
def lowest_price_today (e : Electricity) (nowInstant localOffset : ℚ) : Option ℚ :=
  let prices := e.prices_today nowInstant localOffset
  if prices.length = 0 then none
  else some (pyround5 (pymin (prices.map Prod.snd)))

/-- `Electricity.lowest_price_tomorrow`. -/
def lowest_price_tomorrow (e : Electricity) (nowInstant localOffset : ℚ) :
    Option ℚ :=
  let prices := e.prices_tomorrow nowInstant localOffset
  if prices.length = 0 then none
  else some (pyround5 (pymin (prices.map Prod.snd)))

/-- `Electricity.highest_price_today`. -/
def highest_price_today (e : Electricity) (nowInstant localOffset : ℚ) : Option ℚ :=
  let prices := e.prices_today nowInstant localOffset
  if prices.length = 0 then none
  else some (pyround5 (pymax (prices.map Prod.snd)))

/-- `Electricity.highest_price_tomorrow`. -/
def highest_price_tomorrow (e : Electricity) (nowInstant localOffset : ℚ) :
    Option ℚ :=
  let prices := e.prices_tomorrow nowInstant localOffset
  if prices.length = 0 then none
  else some (pyround5 (pymax (prices.map Prod.snd)))

/-- `Electricity.average_price_today`: `round(sum(values)/len(values), 5)`,
`None` on an empty day. -/
def average_price_today (e : Electricity) (nowInstant localOffset : ℚ) :
    Option ℚ :=
  let prices := e.prices_today nowInstant localOffset
  if prices.length = 0 then none
  else some (pyround5 ((prices.map Prod.snd).sum / prices.length))

/-- `Electricity.average_price_tomorrow`. -/
def average_price_tomorrow (e : Electricity) (nowInstant localOffset : ℚ) :
    Option ℚ :=
  let prices := e.prices_tomorrow nowInstant localOffset
  if prices.length = 0 then none
  else some (pyround5 ((prices.map Prod.snd).sum / prices.length))

/-- `Electricity.highest_price_time_today`. -/
def highest_price_time_today (e : Electricity) (nowInstant localOffset : ℚ) :
    Option Datetime :=
  get_pricetime_max (e.prices_today nowInstant localOffset)

/-- `Electricity.highest_price_time_tomorrow`. -/
def highest_price_time_tomorrow (e : Electricity) (nowInstant localOffset : ℚ) :
    Option Datetime :=
  get_pricetime_max (e.prices_tomorrow nowInstant localOffset)

/-- `Electricity.lowest_price_time_today`. -/
def lowest_price_time_today (e : Electricity) (nowInstant localOffset : ℚ) :
    Option Datetime :=
  get_pricetime_min (e.prices_today nowInstant localOffset)

/-- `Electricity.lowest_price_time_tomorrow`. -/
def lowest_price_time_tomorrow (e : Electricity) (nowInstant localOffset : ℚ) :
    Option Datetime :=
  get_pricetime_min (e.prices_tomorrow nowInstant localOffset)

/-- `Electricity.hours_priced_equal_or_lower`:
`sum(price <= (current_price or 0) for price in prices_today().values())`. -/
def hours_priced_equal_or_lower (e : Electricity) (nowInstant localOffset : ℚ) :
    ℕ :=
  let current := py_or_zero (e.current_price nowInstant localOffset)
  (e.prices_today nowInstant localOffset).foldl
    (fun acc tp => acc + (if tp.2 ≤ current then 1 else 0)) 0

/-- `Electricity.generate_timestamp_list(prices)`: the `{timestamp, price}`
records, prices rounded to five decimals, in mapping order. -/
def generate_timestamp_list (prices : List (Datetime × ℚ)) :
    List (Datetime × ℚ) :=
  prices.map (fun tp => (tp.1, pyround5 tp.2))

/-- `Electricity.timestamp_prices`. -/
def timestamp_prices (e : Electricity) : List (Datetime × ℚ) :=
  generate_timestamp_list e.prices

/-- `Electricity.timestamp_prices_today`. -/
def timestamp_prices_today (e : Electricity) (nowInstant localOffset : ℚ) :
    List (Datetime × ℚ) :=
  generate_timestamp_list (e.prices_today nowInstant localOffset)

end Electricity

/-- CPython `dict` assignment `m[k] = v` on the insertion-ordered pair list:
an existing key (aware datetimes are equal when their instants are equal)
keeps its position and original key object and only the value is replaced;
otherwise the pair is appended. -/
def dict_insert (m : List (Datetime × ℚ)) (k : Datetime) (v : ℚ) :
    List (Datetime × ℚ) :=
  match m with
  | [] => [(k, v)]
  | p :: ps =>
      if p.1.instant = k.instant then (p.1, v) :: ps
      else p :: dict_insert ps k v

/-- `Electricity.from_dict(data, time_zone)`: fold the decoded records (already
parsed into aware datetimes paired with `PriceWithTax`) into a dict. -/
def Electricity.from_dict (data : List (Datetime × ℚ)) (time_zone : ℚ) :
    Electricity :=
  ⟨data.foldl (fun m r => dict_insert m r.1 r.2) [], time_zone⟩

/-- The error taxonomy of `spothinta.SpotHinta.energy_prices` below the
transport layer. -/
inductive FetchError where
  | noDataError : FetchError
deriving DecidableEq, Repr

/-- `SpotHinta.energy_prices` after the response is decoded: raise
`SpotHintaNoDataError` on an empty array, otherwise build the series from the
records and the region's timezone. -/
def energy_prices (data : List (Datetime × ℚ)) (time_zone : ℚ) :
    Except FetchError Electricity :=
  if data.length = 0 then .error .noDataError
  else .ok (Electricity.from_dict data time_zone)

/-- The day-partition as the spec words it (`prices_for_day(offset_days)`):
the entries whose timestamp's civil date **in the series' reference timezone**
equals `now().date() + offset_days`, where `now()` is the current instant in
the reference timezone.  Written from the spec's words, for comparison with
`prices_today` / `prices_tomorrow`; it is not a translation of the source. -/
def spec_prices_for_day (e : Electricity) (nowInstant : ℚ) (offsetDays : ℤ) :
    List (Datetime × ℚ) :=
  e.prices.filter
    (fun tp => decide
      ((tp.1.astimezone e.time_zone).date
        = (e.now_in_timezone nowInstant).date + offsetDays))

/-- Modelled from the spec: the supported sampling resolutions, in minutes
(§6: "historically just 60 minutes; later extended to include 15-minute
sampling").  The resolution-validating variant of `SpotHinta.energy_prices`
and its `SpotHintaUnsupportedResolutionError` are only declared (package
`__all__`) and exercised by the tests here; the implementing module is not
among the sources. -/
def supported_resolutions : List ℚ := [60, 15]

/-- Modelled from the spec: the first observable step of the fetch operation —
either it fails with `UnsupportedResolutionError` without issuing a request,
or it issues the HTTP request for the given resolution. -/
inductive FetchStep where
  | unsupportedResolutionError : FetchStep
  | httpRequest (res : ℚ) : FetchStep
deriving DecidableEq, Repr

/-- Modelled from the spec: `SpotHinta.energy_prices(region, resolution)`
validates the requested sampling resolution against the supported set and
raises `SpotHintaUnsupportedResolutionError` before any network call is made
(§4.2, §7, scenario E); only for a supported resolution does the outbound
request happen. -/
def energy_prices_fetch_step (res : ℚ) : FetchStep :=
  if res ∈ supported_resolutions then .httpRequest res
  else .unsupportedResolutionError

/-- A small concrete series: reference timezone UTC, two hourly entries on the
epoch day priced 1 and 2. -/
def sampleSeries : Electricity :=
  ⟨[(⟨0, 0⟩, 1), (⟨60, 0⟩, 2)], 0⟩

/-- A series whose single timestamp reads 23:50 in UTC while the reference
timezone is UTC+2 (where that instant already belongs to the next civil day). -/
def skewSeries : Electricity :=
  ⟨[(⟨1430, 0⟩, 5)], 120⟩

/-- A series with one entry of negative price at midnight UTC. -/
def gapSeries : Electricity :=
  ⟨[(⟨0, 0⟩, -1)], 0⟩

/-- A series with tied extreme prices on both days: today's minimum 3 occurs at
01:00 and again at 02:00, tomorrow's maximum 7 at 00:00 and again at 01:00. -/
def tieSeries : Electricity :=
  ⟨[(⟨0, 0⟩, 5), (⟨60, 0⟩, 3), (⟨120, 0⟩, 3), (⟨1440, 0⟩, 7), (⟨1500, 0⟩, 7)], 0⟩

/-! ### Rounding lemmas -/

theorem ratFloor_eq_intFloor (q : ℚ) : q.floor = ⌊q⌋ := by
  rw [Rat.floor_def', Rat.floor_def]

theorem roundHalfEven_le (x : ℚ) : roundHalfEven x ≤ ⌊x⌋ + 1 := by
  unfold roundHalfEven
  simp only [ratFloor_eq_intFloor]
  split_ifs <;> omega

theorem le_roundHalfEven (x : ℚ) : ⌊x⌋ ≤ roundHalfEven x := by
  unfold roundHalfEven
  simp only [ratFloor_eq_intFloor]
  split_ifs <;> omega

theorem roundHalfEven_mono {x y : ℚ} (h : x ≤ y) :
    roundHalfEven x ≤ roundHalfEven y := by
  rcases lt_or_eq_of_le (Int.floor_mono h) with hf | hf
  · calc roundHalfEven x ≤ ⌊x⌋ + 1 := roundHalfEven_le x
    _ ≤ ⌊y⌋ := by omega
    _ ≤ roundHalfEven y := le_roundHalfEven y
  · unfold roundHalfEven
    simp only [ratFloor_eq_intFloor]
    rw [hf]
    by_cases ha1 : x - (⌊y⌋ : ℚ) < 1/2
    · rw [if_pos ha1]
      split_ifs <;> omega
    · rw [if_neg ha1]
      have hb1 : ¬ y - (⌊y⌋ : ℚ) < 1/2 := by
        intro hb; exact ha1 (by linarith)
      rw [if_neg hb1]
      by_cases ha2 : x - (⌊y⌋ : ℚ) = 1/2
      · rw [if_pos ha2]
        split_ifs <;> omega
      · rw [if_neg ha2]
        have hb2 : ¬ y - (⌊y⌋ : ℚ) = 1/2 := by
          have hgt : 1/2 < x - (⌊y⌋ : ℚ) :=
            lt_of_le_of_ne (not_lt.mp ha1) (Ne.symm ha2)
          intro hb; linarith
        rw [if_neg hb2]

theorem pyround5_mono {x y : ℚ} (h : x ≤ y) : pyround5 x ≤ pyround5 y := by
  unfold pyround5
  have hm : roundHalfEven (x * 100000) ≤ roundHalfEven (y * 100000) :=
    roundHalfEven_mono (by linarith)
  have hc : (roundHalfEven (x * 100000) : ℚ) ≤ (roundHalfEven (y * 100000) : ℚ) := by
    exact_mod_cast hm
  linarith

/-! ### Datetime lemmas -/

theorem Datetime.instant_add_minutes (d : Datetime) (m : ℚ) :
    (d.add_minutes m).instant = d.instant + m := by
  simp only [Datetime.add_minutes, Datetime.instant]
  ring

theorem Datetime.date_astimezone_add_day (d : Datetime) (off : ℚ) :
    ((d.add_minutes minutesPerDay).astimezone off).date
      = (d.astimezone off).date + 1 := by
  simp only [Datetime.astimezone, Datetime.date, Datetime.instant_add_minutes,
    minutesPerDay, ratFloor_eq_intFloor]
  have h : (d.instant + 1440 + off) / 1440 = (d.instant + off) / 1440 + 1 := by
    ring
  rw [h, Int.floor_add_one]

/-! ### Fold lemmas -/

theorem timed_value_foldl_aux (moment : Datetime) (l : List (Datetime × ℚ))
    (init : Option ℚ) :
    l.foldl
      (fun value tp =>
        if tp.1.instant ≤ moment.instant
            ∧ moment.instant < (tp.1.add_minutes 60).instant
        then some (pyround5 tp.2) else value)
      init
      = (l.reverse.find? (fun tp =>
          decide (tp.1.instant ≤ moment.instant
            ∧ moment.instant < tp.1.instant + resolution))).elim
          init (fun tp => some (pyround5 tp.2)) := by
  induction l using List.reverseRecOn generalizing init with
  | nil => simp
  | append_singleton ys y ih =>
    rw [List.foldl_append, List.reverse_append]
    simp only [List.foldl_cons, List.foldl_nil, List.reverse_singleton,
      List.singleton_append]
    by_cases hy : y.1.instant ≤ moment.instant
        ∧ moment.instant < (y.1.add_minutes 60).instant
    · rw [if_pos hy, List.find?_cons_of_pos _
        (by simpa [Datetime.instant_add_minutes, resolution] using hy)]
      rfl
    · rw [if_neg hy, List.find?_cons_of_neg _
        (by simpa [Datetime.instant_add_minutes, resolution] using hy)]
      exact ih init

theorem day_filter_foldl_aux (dnum : ℤ) (l acc : List (Datetime × ℚ)) :
    l.foldl (fun acc tp => if tp.1.date = dnum then acc ++ [tp] else acc) acc
      = acc ++ l.filter (fun tp => decide (tp.1.date = dnum)) := by
  induction l generalizing acc with
  | nil => simp
  | cons x xs ih =>
    simp only [List.foldl_cons, List.filter_cons]
    by_cases hx : x.1.date = dnum
    · rw [if_pos hx, ih]
      simp [hx]
    · rw [if_neg hx, ih]
      simp [hx]

theorem foldl_count {α : Type} (p : α → Prop) [DecidablePred p]
    (l : List α) (init : ℕ) :
    l.foldl (fun acc a => acc + (if p a then 1 else 0)) init
      = init + l.countP (fun a => decide (p a)) := by
  induction l generalizing init with
  | nil => simp
  | cons x xs ih =>
    simp only [List.foldl_cons, List.countP_cons]
    rw [ih]
    by_cases hx : p x <;> simp [hx]
    omega

/-! ### Fold lemmas for min / max -/

theorem foldl_min_le_init (xs : List ℚ) (a : ℚ) : xs.foldl min a ≤ a := by
  induction xs generalizing a with
  | nil => simp
  | cons z zs ih =>
    simp only [List.foldl_cons]
    exact le_trans (ih (min a z)) (min_le_left a z)

theorem init_le_foldl_max (xs : List ℚ) (a : ℚ) : a ≤ xs.foldl max a := by
  induction xs generalizing a with
  | nil => simp
  | cons z zs ih =>
    simp only [List.foldl_cons]
    exact le_trans (le_max_left a z) (ih (max a z))

theorem foldl_min_le_mem {xs : List ℚ} {x y : ℚ} (hy : y ∈ x :: xs) :
    xs.foldl min x ≤ y := by
  induction xs generalizing x with
  | nil =>
    rw [List.mem_singleton] at hy
    subst hy
    simp
  | cons z zs ih =>
    simp only [List.foldl_cons]
    rcases List.mem_cons.mp hy with rfl | hy2
    · exact le_trans (foldl_min_le_init zs (min y z)) (min_le_left y z)
    · rcases List.mem_cons.mp hy2 with rfl | hy3
      · exact le_trans (foldl_min_le_init zs (min x y)) (min_le_right x y)
      · exact ih (List.mem_cons_of_mem _ hy3)

theorem mem_le_foldl_max {xs : List ℚ} {x y : ℚ} (hy : y ∈ x :: xs) :
    y ≤ xs.foldl max x := by
  induction xs generalizing x with
  | nil =>
    rw [List.mem_singleton] at hy
    subst hy
    simp
  | cons z zs ih =>
    simp only [List.foldl_cons]
    rcases List.mem_cons.mp hy with rfl | hy2
    · exact le_trans (le_max_left y z) (init_le_foldl_max zs (max y z))
    · rcases List.mem_cons.mp hy2 with rfl | hy3
      · exact le_trans (le_max_right x y) (init_le_foldl_max zs (max x y))
      · exact ih (List.mem_cons_of_mem _ hy3)

theorem pymin_le_mem {l : List ℚ} {y : ℚ} (hy : y ∈ l) : pymin l ≤ y := by
  cases l with
  | nil => cases hy
  | cons x xs => exact foldl_min_le_mem hy

theorem mem_le_pymax {l : List ℚ} {y : ℚ} (hy : y ∈ l) : y ≤ pymax l := by
  cases l with
  | nil => cases hy
  | cons x xs => exact mem_le_foldl_max hy

/-! ### Sum bounds -/

theorem mul_length_le_sum (l : List ℚ) (m : ℚ) (h : ∀ y ∈ l, m ≤ y) :
    m * l.length ≤ l.sum := by
  induction l with
  | nil => simp
  | cons x xs ih =>
    simp only [List.sum_cons, List.length_cons]
    have hx := h x (List.mem_cons_self x xs)
    have hxs := ih (fun y hy => h y (List.mem_cons_of_mem _ hy))
    have hexp : m * ((xs.length : ℚ) + 1) = m * (xs.length : ℚ) + m := by ring
    push_cast
    rw [hexp]
    linarith

theorem sum_le_mul_length (l : List ℚ) (M : ℚ) (h : ∀ y ∈ l, y ≤ M) :
    l.sum ≤ M * l.length := by
  induction l with
  | nil => simp
  | cons x xs ih =>
    simp only [List.sum_cons, List.length_cons]
    have hx := h x (List.mem_cons_self x xs)
    have hxs := ih (fun y hy => h y (List.mem_cons_of_mem _ hy))
    have hexp : M * ((xs.length : ℚ) + 1) = M * (xs.length : ℚ) + M := by ring
    push_cast
    rw [hexp]
    linarith

/-! ### First-attaining-the-extreme fold lemmas

Python's `max(iterable, key=f)` (and `min`) replaces the running best only on
a strictly better key, so on ties the earliest element wins. -/

theorem foldl_best_max (xs : List (Datetime × ℚ)) (b : Datetime × ℚ) :
    (∀ q ∈ b :: xs,
        q.2 ≤ (xs.foldl (fun best y => if y.2 > best.2 then y else best) b).2)
      ∧ (b :: xs).find?
          (fun q => decide
            (q.2 = (xs.foldl (fun best y => if y.2 > best.2 then y else best) b).2))
        = some (xs.foldl (fun best y => if y.2 > best.2 then y else best) b) := by
  induction xs generalizing b with
  | nil =>
    refine ⟨?_, ?_⟩
    · intro q hq
      rw [List.mem_singleton] at hq
      subst hq
      simp
    · simp
  | cons y ys ih =>
    simp only [List.foldl_cons]
    by_cases hy : y.2 > b.2
    · simp only [if_pos hy]
      obtain ⟨ih1, ih2⟩ := ih y
      have hbr : b.2 < (ys.foldl (fun best y => if y.2 > best.2 then y else best) y).2 :=
        lt_of_lt_of_le hy (ih1 y (List.mem_cons_self y ys))
      refine ⟨?_, ?_⟩
      · intro q hq
        rcases List.mem_cons.mp hq with rfl | hq2
        · exact le_of_lt hbr
        · exact ih1 q hq2
      · rw [List.find?_cons_of_neg _ (by simpa using ne_of_lt hbr)]
        exact ih2
    · simp only [if_neg hy]
      obtain ⟨ih1, ih2⟩ := ih b
      have hyb : y.2 ≤ b.2 := not_lt.mp hy
      have hble : b.2 ≤ (ys.foldl (fun best y => if y.2 > best.2 then y else best) b).2 :=
        ih1 b (List.mem_cons_self b ys)
      refine ⟨?_, ?_⟩
      · intro q hq
        rcases List.mem_cons.mp hq with rfl | hq2
        · exact hble
        · rcases List.mem_cons.mp hq2 with rfl | hq3
          · exact le_trans hyb hble
          · exact ih1 q (List.mem_cons_of_mem _ hq3)
      · by_cases hbr : b.2 = (ys.foldl (fun best y => if y.2 > best.2 then y else best) b).2
        · rw [List.find?_cons_of_pos _ (by simpa using hbr)]
          rw [List.find?_cons_of_pos _ (by simpa using hbr)] at ih2
          exact ih2
        · have hblt : b.2 < (ys.foldl (fun best y => if y.2 > best.2 then y else best) b).2 :=
            lt_of_le_of_ne hble hbr
          have hylt : y.2 ≠ (ys.foldl (fun best y => if y.2 > best.2 then y else best) b).2 :=
            ne_of_lt (lt_of_le_of_lt hyb hblt)
          rw [List.find?_cons_of_neg _ (by simpa using hbr),
            List.find?_cons_of_neg _ (by simpa using hylt)]
          rw [List.find?_cons_of_neg _ (by simpa using hbr)] at ih2
          exact ih2

theorem foldl_best_min (xs : List (Datetime × ℚ)) (b : Datetime × ℚ) :
    (∀ q ∈ b :: xs,
        (xs.foldl (fun best y => if y.2 < best.2 then y else best) b).2 ≤ q.2)
      ∧ (b :: xs).find?
          (fun q => decide
            (q.2 = (xs.foldl (fun best y => if y.2 < best.2 then y else best) b).2))
        = some (xs.foldl (fun best y => if y.2 < best.2 then y else best) b) := by
  induction xs generalizing b with
  | nil =>
    refine ⟨?_, ?_⟩
    · intro q hq
      rw [List.mem_singleton] at hq
      subst hq
      simp
    · simp
  | cons y ys ih =>
    simp only [List.foldl_cons]
    by_cases hy : y.2 < b.2
    · simp only [if_pos hy]
      obtain ⟨ih1, ih2⟩ := ih y
      have hbr : (ys.foldl (fun best y => if y.2 < best.2 then y else best) y).2 < b.2 :=
        lt_of_le_of_lt (ih1 y (List.mem_cons_self y ys)) hy
      refine ⟨?_, ?_⟩
      · intro q hq
        rcases List.mem_cons.mp hq with rfl | hq2
        · exact le_of_lt hbr
        · exact ih1 q hq2
      · rw [List.find?_cons_of_neg _ (by simpa using (ne_of_lt hbr).symm)]
        exact ih2
    · simp only [if_neg hy]
      obtain ⟨ih1, ih2⟩ := ih b
      have hyb : b.2 ≤ y.2 := not_lt.mp hy
      have hble : (ys.foldl (fun best y => if y.2 < best.2 then y else best) b).2 ≤ b.2 :=
        ih1 b (List.mem_cons_self b ys)
      refine ⟨?_, ?_⟩
      · intro q hq
        rcases List.mem_cons.mp hq with rfl | hq2
        · exact hble
        · rcases List.mem_cons.mp hq2 with rfl | hq3
          · exact le_trans hble hyb
          · exact ih1 q (List.mem_cons_of_mem _ hq3)
      · by_cases hbr : b.2 = (ys.foldl (fun best y => if y.2 < best.2 then y else best) b).2
        · rw [List.find?_cons_of_pos _ (by simpa using hbr)]
          rw [List.find?_cons_of_pos _ (by simpa using hbr)] at ih2
          exact ih2
        · have hblt : (ys.foldl (fun best y => if y.2 < best.2 then y else best) b).2 < b.2 :=
            lt_of_le_of_ne hble (fun h => hbr h.symm)
          have hylt : y.2 ≠ (ys.foldl (fun best y => if y.2 < best.2 then y else best) b).2 :=
            (ne_of_lt (lt_of_lt_of_le hblt hyb)).symm
          rw [List.find?_cons_of_neg _ (by simpa using hbr),
            List.find?_cons_of_neg _ (by simpa using hylt)]
          rw [List.find?_cons_of_neg _ (by simpa using hbr)] at ih2
          exact ih2

/-! ### Dict lemmas -/

theorem dict_insert_of_not_mem (m : List (Datetime × ℚ)) (k : Datetime) (v : ℚ)
    (h : ∀ p ∈ m, p.1.instant ≠ k.instant) :
    dict_insert m k v = m ++ [(k, v)] := by
  induction m with
  | nil => rfl
  | cons p ps ih =>
    simp only [dict_insert]
    rw [if_neg (h p (List.mem_cons_self p ps)),
      ih (fun q hq => h q (List.mem_cons_of_mem _ hq))]
    simp

theorem from_dict_foldl (recs : List (Datetime × ℚ))
    (acc : List (Datetime × ℚ))
    (hd : recs.Pairwise (fun a b => a.1.instant ≠ b.1.instant))
    (hacc : ∀ r ∈ recs, ∀ p ∈ acc, p.1.instant ≠ r.1.instant) :
    recs.foldl (fun m r => dict_insert m r.1 r.2) acc = acc ++ recs := by
  induction recs generalizing acc with
  | nil => simp
  | cons r rs ih =>
    simp only [List.foldl_cons]
    rw [dict_insert_of_not_mem acc r.1 r.2
      (fun p hp => hacc r (List.mem_cons_self r rs) p hp)]
    have hd2 := (List.pairwise_cons.mp hd).2
    have hhead := (List.pairwise_cons.mp hd).1
    rw [ih (acc ++ [(r.1, r.2)]) hd2 ?hacc2]
    · simp
    case hacc2 =>
      intro r2 hr2 p hp
      rcases List.mem_append.mp hp with hpa | hpr
      · exact hacc r2 (List.mem_cons_of_mem _ hr2) p hpa
      · rw [List.mem_singleton] at hpr
        subst hpr
        exact hhead r2 hr2

theorem from_dict_prices_of_pairwise (recs : List (Datetime × ℚ)) (tz : ℚ)
    (hd : recs.Pairwise (fun a b => a.1.instant ≠ b.1.instant)) :
    (Electricity.from_dict recs tz).prices = recs := by
  unfold Electricity.from_dict
  simpa using from_dict_foldl recs [] hd (by simp)

/-! ### Query characterizations -/

theorem py_or_zero_eq_getD (v : Option ℚ) : py_or_zero v = v.getD 0 := by
  cases v with
  | none => rfl
  | some x =>
    simp only [py_or_zero, Option.getD_some]
    split_ifs with h
    · exact h.symm
    · rfl

theorem price_at_time_eq_timed (e : Electricity) (moment : Datetime) :
    e.price_at_time moment = timed_value moment e.prices := by
  unfold Electricity.price_at_time
  cases h : timed_value moment e.prices with
  | none => simp [h]
  | some v => simp [h]

theorem price_at_time_eq_find (e : Electricity) (moment : Datetime) :
    e.price_at_time moment
      = (e.prices.reverse.find? (fun tp =>
          decide (tp.1.instant ≤ moment.instant
            ∧ moment.instant < tp.1.instant + resolution))).map
          (fun tp => pyround5 tp.2) := by
  rw [price_at_time_eq_timed]
  unfold timed_value
  rw [timed_value_foldl_aux]
  cases e.prices.reverse.find? (fun tp =>
      decide (tp.1.instant ≤ moment.instant
        ∧ moment.instant < tp.1.instant + resolution)) with
  | none => rfl
  | some tp => rfl

theorem prices_today_eq_filter (e : Electricity) (nowInstant localOffset : ℚ) :
    e.prices_today nowInstant localOffset
      = e.prices.filter (fun tp =>
          decide (tp.1.date
            = ((e.now_in_timezone nowInstant).astimezone localOffset).date)) := by
  unfold Electricity.prices_today
  simpa using day_filter_foldl_aux
    ((e.now_in_timezone nowInstant).astimezone localOffset).date e.prices []

theorem prices_tomorrow_eq_filter (e : Electricity) (nowInstant localOffset : ℚ) :
    e.prices_tomorrow nowInstant localOffset
      = e.prices.filter (fun tp =>
          decide (tp.1.date
            = ((e.now_in_timezone nowInstant).astimezone localOffset).date + 1)) := by
  unfold Electricity.prices_tomorrow
  rw [Datetime.date_astimezone_add_day]
  simpa using day_filter_foldl_aux
    (((e.now_in_timezone nowInstant).astimezone localOffset).date + 1) e.prices []

theorem hours_eq_countP (e : Electricity) (nowInstant localOffset : ℚ) :
    e.hours_priced_equal_or_lower nowInstant localOffset
      = (e.prices_today nowInstant localOffset).countP
          (fun tp => decide
            (tp.2 ≤ py_or_zero (e.current_price nowInstant localOffset))) := by
  unfold Electricity.hours_priced_equal_or_lower
  simpa using foldl_count
    (fun tp : Datetime × ℚ =>
      tp.2 ≤ py_or_zero (e.current_price nowInstant localOffset))
    (e.prices_today nowInstant localOffset) 0

/-! ### Claims -/

/-- Claim C1: for every constructed series and every instant `t`,
`price_at_time(t)` returns the price, rounded to 5 decimal places, of the
entry whose `[start, start + resolution)` window contains `t` (this variant's
resolution is the fixed 60 minutes of `timedelta(hours=1)`); if more than one
entry's window contains `t`, the last matching entry in insertion order wins
(the first match on the reversed mapping); and the result is absent (`none`)
when no entry's window contains `t`. -/
theorem claim_c1_price_at_time (e : Electricity) (moment : Datetime) :
    (e.price_at_time moment
        = (e.prices.reverse.find? (fun tp =>
            decide (tp.1.instant ≤ moment.instant
              ∧ moment.instant < tp.1.instant + resolution))).map
            (fun tp => pyround5 tp.2))
      ∧ (e.price_at_time moment = none ↔
          ∀ tp ∈ e.prices, ¬ (tp.1.instant ≤ moment.instant
            ∧ moment.instant < tp.1.instant + resolution)) := by
  refine ⟨price_at_time_eq_find e moment, ?_⟩
  rw [price_at_time_eq_find e moment]
  cases hf : e.prices.reverse.find? (fun tp =>
      decide (tp.1.instant ≤ moment.instant
        ∧ moment.instant < tp.1.instant + resolution)) with
  | none =>
    simp only [Option.map_none']
    constructor
    · intro _ tp htp
      have hh := List.find?_eq_none.mp hf tp (List.mem_reverse.mpr htp)
      simpa using hh
    · intro _
      trivial
  | some tp =>
    simp only [Option.map_some']
    have hmem : tp ∈ e.prices :=
      List.mem_reverse.mp (List.mem_of_find?_eq_some hf)
    have hp := List.find?_some hf
    simp only [decide_eq_true_eq] at hp
    constructor
    · intro hcontra
      exact Option.noConfusion hcontra
    · intro hall
      exact absurd hp (hall tp hmem)

/-- Claim C3: `energy_prices` raises `NoDataError` exactly when the decoded
response array is empty; the check sits between decoding and construction, so
a successful result is only ever built from the (necessarily nonempty) decoded
records, and no series is built from an empty record list. -/
theorem claim_c3_no_data (data : List (Datetime × ℚ)) (tz : ℚ) :
    (energy_prices data tz = Except.error FetchError.noDataError ↔ data = [])
      ∧ (∀ el, energy_prices data tz = Except.ok el →
          data ≠ [] ∧ el = Electricity.from_dict data tz) := by
  unfold energy_prices
  by_cases h : data.length = 0
  · rw [if_pos h]
    have hd : data = [] := List.length_eq_zero.mp h
    exact ⟨⟨fun _ => hd, fun _ => rfl⟩, fun el hel => Except.noConfusion hel⟩
  · rw [if_neg h]
    have hd : data ≠ [] := fun he => h (by simp [he])
    refine ⟨⟨fun hcontra => Except.noConfusion hcontra,
      fun he => absurd he hd⟩, ?_⟩
    intro el hel
    injection hel with h2
    exact ⟨hd, h2.symm⟩

/-- Witness for C3: a one-record response is accepted and the series is built
from it. -/
theorem claim_c3_witness :
    energy_prices [((⟨0, 0⟩ : Datetime), (1 : ℚ))] 0
        = Except.ok (Electricity.from_dict [((⟨0, 0⟩ : Datetime), (1 : ℚ))] 0)
      ∧ ([((⟨0, 0⟩ : Datetime), (1 : ℚ))] : List (Datetime × ℚ)) ≠ [] :=
  ⟨rfl, ((claim_c3_no_data [((⟨0, 0⟩ : Datetime), (1 : ℚ))] 0).2
    (Electricity.from_dict [((⟨0, 0⟩ : Datetime), (1 : ℚ))] 0) rfl).1⟩

/-- Claim C9 (spec-modelled): requesting a sampling resolution outside the
supported set makes the fetch fail with `UnsupportedResolutionError` before
any network request is attempted (the failing step issues no request), while a
supported resolution proceeds to the HTTP request. -/
theorem claim_c9_unsupported_resolution (res : ℚ)
    (h : res ∉ supported_resolutions) :
    energy_prices_fetch_step res = FetchStep.unsupportedResolutionError
      ∧ ∀ r ∈ supported_resolutions,
          energy_prices_fetch_step r = FetchStep.httpRequest r := by
  constructor
  · unfold energy_prices_fetch_step
    rw [if_neg h]
  · intro r hr
    unfold energy_prices_fetch_step
    rw [if_pos hr]

/-- Witness for C9: 45 minutes (scenario E) is unsupported and rejected
without a request. -/
theorem claim_c9_witness :
    (45 : ℚ) ∉ supported_resolutions
      ∧ energy_prices_fetch_step 45 = FetchStep.unsupportedResolutionError := by
  have h45 : (45 : ℚ) ∉ supported_resolutions := by
    norm_num [supported_resolutions]
  exact ⟨h45, (claim_c9_unsupported_resolution 45 h45).1⟩

/-- Claim C4: `hours_priced_equal_or_lower` equals the number of today's
entries priced at most the current price, an absent current price comparing as
zero; it is 0 on an empty today-mapping; and enlarging the comparison
threshold never decreases the count. -/
theorem claim_c4_rank_count (e : Electricity) (nowInstant localOffset : ℚ) :
    (e.hours_priced_equal_or_lower nowInstant localOffset
        = ((e.prices_today nowInstant localOffset).map Prod.snd).countP
            (fun p => decide
              (p ≤ (e.current_price nowInstant localOffset).getD 0)))
      ∧ (e.prices_today nowInstant localOffset = [] →
          e.hours_priced_equal_or_lower nowInstant localOffset = 0)
      ∧ (∀ t t' : ℚ, t ≤ t' →
          ((e.prices_today nowInstant localOffset).map Prod.snd).countP
              (fun p => decide (p ≤ t))
            ≤ ((e.prices_today nowInstant localOffset).map Prod.snd).countP
              (fun p => decide (p ≤ t'))) := by
  refine ⟨?_, ?_, ?_⟩
  · rw [hours_eq_countP, List.countP_map]
    have hfun : ((fun p : ℚ => decide
        (p ≤ (e.current_price nowInstant localOffset).getD 0)) ∘ Prod.snd)
        = (fun tp : Datetime × ℚ => decide
            (tp.2 ≤ py_or_zero (e.current_price nowInstant localOffset))) := by
      funext tp
      simp [Function.comp, py_or_zero_eq_getD]
    rw [hfun]
  · intro h
    rw [hours_eq_countP, h]
    rfl
  · intro t t' htt
    apply List.countP_mono_left
    intro p _ hle
    simp only [decide_eq_true_eq] at hle ⊢
    linarith

/-- Witness for C4: on `sampleSeries` at midnight the count equals the rank
count, and the count at threshold 0 is at most the count at threshold 1. -/
theorem claim_c4_witness :
    sampleSeries.hours_priced_equal_or_lower 0 0
        = ((sampleSeries.prices_today 0 0).map Prod.snd).countP
            (fun p => decide (p ≤ (sampleSeries.current_price 0 0).getD 0))
      ∧ (0 : ℚ) ≤ 1
      ∧ ((sampleSeries.prices_today 0 0).map Prod.snd).countP
            (fun p => decide (p ≤ (0 : ℚ)))
          ≤ ((sampleSeries.prices_today 0 0).map Prod.snd).countP
            (fun p => decide (p ≤ (1 : ℚ))) :=
  ⟨(claim_c4_rank_count sampleSeries 0 0).1, by norm_num,
    (claim_c4_rank_count sampleSeries 0 0).2.2 0 1 (by norm_num)⟩

/-- Claim C5: today's lowest and highest prices satisfy lowest ≤ highest
whenever both are present, and each is absent exactly when today's mapping is
empty (so neither can be absent without the other). -/
theorem claim_c5_extremes (e : Electricity) (nowInstant localOffset : ℚ) :
    (∀ lo hi, e.lowest_price_today nowInstant localOffset = some lo →
        e.highest_price_today nowInstant localOffset = some hi → lo ≤ hi)
      ∧ (e.lowest_price_today nowInstant localOffset = none
          ↔ e.prices_today nowInstant localOffset = [])
      ∧ (e.highest_price_today nowInstant localOffset = none
          ↔ e.prices_today nowInstant localOffset = []) := by
  simp only [Electricity.lowest_price_today, Electricity.highest_price_today]
  by_cases h : (e.prices_today nowInstant localOffset).length = 0
  · simp only [if_pos h]
    have hd := List.length_eq_zero.mp h
    refine ⟨?_, ?_, ?_⟩
    · intro lo hi hlo
      exact absurd hlo (by simp)
    · simp [hd]
    · simp [hd]
  · simp only [if_neg h]
    have hne : e.prices_today nowInstant localOffset ≠ [] :=
      fun he => h (by simp [he])
    refine ⟨?_, ?_, ?_⟩
    · intro lo hi hlo hhi
      injection hlo with hlo2
      injection hhi with hhi2
      subst hlo2
      subst hhi2
      apply pyround5_mono
      cases hmv : (e.prices_today nowInstant localOffset).map Prod.snd with
      | nil =>
        have hnil : e.prices_today nowInstant localOffset = [] := by
          simpa using hmv
        exact absurd hnil hne
      | cons v vs =>
        show vs.foldl min v ≤ vs.foldl max v
        exact le_trans (foldl_min_le_init vs v) (init_le_foldl_max vs v)
    · exact ⟨fun hs => Option.noConfusion hs, fun he => absurd he hne⟩
    · exact ⟨fun hs => Option.noConfusion hs, fun he => absurd he hne⟩

/-- Witness for C5: on `sampleSeries` at midnight both extremes are present
and ordered. -/
theorem claim_c5_witness :
    sampleSeries.lowest_price_today 0 0 = some (pyround5 1)
      ∧ sampleSeries.highest_price_today 0 0 = some (pyround5 2)
      ∧ pyround5 1 ≤ pyround5 2 := by
  have h1 : (⌊(0 : ℚ) / 1440⌋ : ℤ) = 0 := by
    norm_num
  have h1b : (⌊(60 : ℚ) / 1440⌋ : ℤ) = 0 := by
    rw [Int.floor_eq_iff]
    norm_num
  have hlo : sampleSeries.lowest_price_today 0 0 = some (pyround5 1) := by
    norm_num [Electricity.lowest_price_today, Electricity.prices_today,
      Electricity.now_in_timezone, datetime_now, Datetime.astimezone,
      Datetime.date, Datetime.instant, minutesPerDay, sampleSeries,
      ratFloor_eq_intFloor, h1, h1b, pymin, min_def]
  have hhi : sampleSeries.highest_price_today 0 0 = some (pyround5 2) := by
    norm_num [Electricity.highest_price_today, Electricity.prices_today,
      Electricity.now_in_timezone, datetime_now, Datetime.astimezone,
      Datetime.date, Datetime.instant, minutesPerDay, sampleSeries,
      ratFloor_eq_intFloor, h1, h1b, pymax, max_def]
  exact ⟨hlo, hhi, (claim_c5_extremes sampleSeries 0 0).1 _ _ hlo hhi⟩

/-- The mean of a nonempty day's values, rounded, lies between the rounded
minimum and the rounded maximum. -/
theorem avg_bounds_aux (l : List (Datetime × ℚ)) (hne : l ≠ []) :
    pyround5 (pymin (l.map Prod.snd))
        ≤ pyround5 ((l.map Prod.snd).sum / l.length)
      ∧ pyround5 ((l.map Prod.snd).sum / l.length)
        ≤ pyround5 (pymax (l.map Prod.snd)) := by
  have hlen : (0 : ℚ) < l.length := by
    have hpos : 0 < l.length := List.length_pos.mpr hne
    exact_mod_cast hpos
  have hmin : pymin (l.map Prod.snd) * l.length ≤ (l.map Prod.snd).sum := by
    have hh := mul_length_le_sum (l.map Prod.snd) (pymin (l.map Prod.snd))
      (fun y hy => pymin_le_mem hy)
    simpa using hh
  have hmax : (l.map Prod.snd).sum ≤ pymax (l.map Prod.snd) * l.length := by
    have hh := sum_le_mul_length (l.map Prod.snd) (pymax (l.map Prod.snd))
      (fun y hy => mem_le_pymax hy)
    simpa using hh
  constructor
  · apply pyround5_mono
    rw [le_div_iff₀ hlen]
    exact hmin
  · apply pyround5_mono
    rw [div_le_iff₀ hlen]
    exact hmax

/-- Claim C6: for each day (today and tomorrow), the average price is the
arithmetic mean of the day's values rounded to 5 decimal places, is absent
exactly when the day's mapping is empty (the division by the entry count is
never reached with a zero count), and whenever defined lies within
[lowest price for the day, highest price for the day]. -/
theorem claim_c6_average (e : Electricity) (nowInstant localOffset : ℚ) :
    (e.average_price_today nowInstant localOffset = none
        ↔ e.prices_today nowInstant localOffset = [])
      ∧ (e.prices_today nowInstant localOffset ≠ [] →
          e.average_price_today nowInstant localOffset
            = some (pyround5
                (((e.prices_today nowInstant localOffset).map Prod.snd).sum
                  / (e.prices_today nowInstant localOffset).length)))
      ∧ (∀ a lo hi,
          e.average_price_today nowInstant localOffset = some a →
          e.lowest_price_today nowInstant localOffset = some lo →
          e.highest_price_today nowInstant localOffset = some hi →
          lo ≤ a ∧ a ≤ hi)
      ∧ (e.average_price_tomorrow nowInstant localOffset = none
          ↔ e.prices_tomorrow nowInstant localOffset = [])
      ∧ (e.prices_tomorrow nowInstant localOffset ≠ [] →
          e.average_price_tomorrow nowInstant localOffset
            = some (pyround5
                (((e.prices_tomorrow nowInstant localOffset).map Prod.snd).sum
                  / (e.prices_tomorrow nowInstant localOffset).length)))
      ∧ (∀ a lo hi,
          e.average_price_tomorrow nowInstant localOffset = some a →
          e.lowest_price_tomorrow nowInstant localOffset = some lo →
          e.highest_price_tomorrow nowInstant localOffset = some hi →
          lo ≤ a ∧ a ≤ hi) := by
  refine ⟨?_, ?_, ?_, ?_, ?_, ?_⟩
  · simp only [Electricity.average_price_today]
    by_cases h : (e.prices_today nowInstant localOffset).length = 0
    · rw [if_pos h]
      exact ⟨fun _ => List.length_eq_zero.mp h, fun _ => rfl⟩
    · rw [if_neg h]
      exact ⟨fun hs => Option.noConfusion hs,
        fun he => absurd he (fun he2 => h (by simp [he2]))⟩
  · intro hne
    simp only [Electricity.average_price_today]
    rw [if_neg (fun hl => hne (List.length_eq_zero.mp hl))]
  · intro a lo hi ha hlo hhi
    simp only [Electricity.average_price_today] at ha
    simp only [Electricity.lowest_price_today] at hlo
    simp only [Electricity.highest_price_today] at hhi
    by_cases h : (e.prices_today nowInstant localOffset).length = 0
    · rw [if_pos h] at ha
      exact Option.noConfusion ha
    · rw [if_neg h] at ha hlo hhi
      injection ha with ha2
      injection hlo with hlo2
      injection hhi with hhi2
      subst ha2
      subst hlo2
      subst hhi2
      exact avg_bounds_aux _ (fun he => h (by simp [he]))
  · simp only [Electricity.average_price_tomorrow]
    by_cases h : (e.prices_tomorrow nowInstant localOffset).length = 0
    · rw [if_pos h]
      exact ⟨fun _ => List.length_eq_zero.mp h, fun _ => rfl⟩
    · rw [if_neg h]
      exact ⟨fun hs => Option.noConfusion hs,
        fun he => absurd he (fun he2 => h (by simp [he2]))⟩
  · intro hne
    simp only [Electricity.average_price_tomorrow]
    rw [if_neg (fun hl => hne (List.length_eq_zero.mp hl))]
  · intro a lo hi ha hlo hhi
    simp only [Electricity.average_price_tomorrow] at ha
    simp only [Electricity.lowest_price_tomorrow] at hlo
    simp only [Electricity.highest_price_tomorrow] at hhi
    by_cases h : (e.prices_tomorrow nowInstant localOffset).length = 0
    · rw [if_pos h] at ha
      exact Option.noConfusion ha
    · rw [if_neg h] at ha hlo hhi
      injection ha with ha2
      injection hlo with hlo2
      injection hhi with hhi2
      subst ha2
      subst hlo2
      subst hhi2
      exact avg_bounds_aux _ (fun he => h (by simp [he]))

/-- Witness for C6: on `sampleSeries` at midnight the average 1.5 lies between
the extremes 1 and 2. -/
theorem claim_c6_witness :
    sampleSeries.prices_today 0 0 ≠ []
      ∧ sampleSeries.average_price_today 0 0 = some (pyround5 (3 / 2))
      ∧ sampleSeries.lowest_price_today 0 0 = some (pyround5 1)
      ∧ sampleSeries.highest_price_today 0 0 = some (pyround5 2)
      ∧ (pyround5 1 ≤ pyround5 (3 / 2) ∧ pyround5 (3 / 2) ≤ pyround5 2) := by
  have h1 : (⌊(0 : ℚ) / 1440⌋ : ℤ) = 0 := by
    norm_num
  have h1b : (⌊(60 : ℚ) / 1440⌋ : ℤ) = 0 := by
    rw [Int.floor_eq_iff]
    norm_num
  have hne : sampleSeries.prices_today 0 0 ≠ [] := by
    norm_num [Electricity.prices_today, Electricity.now_in_timezone,
      datetime_now, Datetime.astimezone, Datetime.date, Datetime.instant,
      minutesPerDay, sampleSeries, ratFloor_eq_intFloor, h1, h1b]
    exact List.cons_ne_nil _ _
  have havg : sampleSeries.average_price_today 0 0 = some (pyround5 (3 / 2)) := by
    norm_num [Electricity.average_price_today, Electricity.prices_today,
      Electricity.now_in_timezone, datetime_now, Datetime.astimezone,
      Datetime.date, Datetime.instant, minutesPerDay, sampleSeries,
      ratFloor_eq_intFloor, h1, h1b]
  have hlo : sampleSeries.lowest_price_today 0 0 = some (pyround5 1) := by
    norm_num [Electricity.lowest_price_today, Electricity.prices_today,
      Electricity.now_in_timezone, datetime_now, Datetime.astimezone,
      Datetime.date, Datetime.instant, minutesPerDay, sampleSeries,
      ratFloor_eq_intFloor, h1, h1b, pymin, min_def]
  have hhi : sampleSeries.highest_price_today 0 0 = some (pyround5 2) := by
    norm_num [Electricity.highest_price_today, Electricity.prices_today,
      Electricity.now_in_timezone, datetime_now, Datetime.astimezone,
      Datetime.date, Datetime.instant, minutesPerDay, sampleSeries,
      ratFloor_eq_intFloor, h1, h1b, pymax, max_def]
  exact ⟨hne, havg, hlo, hhi,
    (claim_c6_average sampleSeries 0 0).2.2.1 _ _ _ havg hlo hhi⟩

/-- Counterexample to C2 as stated: in `skewSeries` the single entry reads
23:50 at UTC offset 0 while the reference timezone is UTC+2, where that
instant falls on the next civil day.  At noon UTC (instant 720, local offset
0) the code's `prices_today` includes the entry — it partitions by the
timestamp's own-offset date and the system-local date of now — although its
civil date in the reference timezone is tomorrow, so the spec's
reference-timezone partition (`spec_prices_for_day`, offset 0) excludes it. -/
theorem claim_c2_counterexample :
    Electricity.prices_today skewSeries 720 0
        ≠ spec_prices_for_day skewSeries 720 0
      ∧ Electricity.prices_today skewSeries 720 0 = [(⟨1430, 0⟩, 5)]
      ∧ spec_prices_for_day skewSeries 720 0 = [] := by
  have h1 : (⌊(1430 : ℚ) / 1440⌋ : ℤ) = 0 := by
    rw [Int.floor_eq_iff]
    norm_num
  have h2 : (⌊(720 : ℚ) / 1440⌋ : ℤ) = 0 := by
    rw [Int.floor_eq_iff]
    norm_num
  have h3 : (⌊(1430 : ℚ) / 1440 + 120 / 1440⌋ : ℤ) = 1 := by
    rw [Int.floor_eq_iff]
    norm_num
  have h4 : (⌊(720 : ℚ) / 1440 + 120 / 1440⌋ : ℤ) = 0 := by
    rw [Int.floor_eq_iff]
    norm_num
  refine ⟨?_, ?_, ?_⟩
  · norm_num [Electricity.prices_today, spec_prices_for_day,
      Electricity.now_in_timezone, datetime_now, Datetime.astimezone,
      Datetime.date, Datetime.instant, minutesPerDay, skewSeries,
      ratFloor_eq_intFloor, h1, h2, h3, h4]
  · norm_num [Electricity.prices_today, Electricity.now_in_timezone,
      datetime_now, Datetime.astimezone, Datetime.date, Datetime.instant,
      minutesPerDay, skewSeries, ratFloor_eq_intFloor, h1, h2]
  · norm_num [spec_prices_for_day, Electricity.now_in_timezone, datetime_now,
      Datetime.astimezone, Datetime.date, Datetime.instant, minutesPerDay,
      skewSeries, ratFloor_eq_intFloor, h3, h4]

/-- Claim C2, amended as the counterexample forces: the day-partition queries
return exactly the subset of entries whose timestamp's civil date **in the
timestamp's own UTC offset** equals the civil date **in the system-local
timezone** of now, plus the day offset (0 for `prices_today`, 1 for
`prices_tomorrow`); and they return an empty mapping — never an error — when
no entries match. -/
theorem claim_c2_day_partition (e : Electricity) (nowInstant localOffset : ℚ) :
    (e.prices_today nowInstant localOffset
        = e.prices.filter (fun tp =>
            decide (tp.1.date
              = ((e.now_in_timezone nowInstant).astimezone localOffset).date)))
      ∧ (e.prices_tomorrow nowInstant localOffset
          = e.prices.filter (fun tp =>
              decide (tp.1.date
                = ((e.now_in_timezone nowInstant).astimezone localOffset).date
                    + 1)))
      ∧ ((∀ tp ∈ e.prices,
            tp.1.date
              ≠ ((e.now_in_timezone nowInstant).astimezone localOffset).date) →
          e.prices_today nowInstant localOffset = [])
      ∧ ((∀ tp ∈ e.prices,
            tp.1.date
              ≠ ((e.now_in_timezone nowInstant).astimezone localOffset).date
                  + 1) →
          e.prices_tomorrow nowInstant localOffset = []) := by
  refine ⟨prices_today_eq_filter e nowInstant localOffset,
    prices_tomorrow_eq_filter e nowInstant localOffset, ?_, ?_⟩
  · intro h
    rw [prices_today_eq_filter]
    apply List.filter_eq_nil_iff.mpr
    intro tp htp
    simpa using h tp htp
  · intro h
    rw [prices_tomorrow_eq_filter]
    apply List.filter_eq_nil_iff.mpr
    intro tp htp
    simpa using h tp htp

/-- Witness for C2 (amended): two days past the epoch day, `skewSeries` has no
matching entries for either day and both partitions are empty. -/
theorem claim_c2_witness :
    (∀ tp ∈ skewSeries.prices,
        tp.1.date ≠ ((skewSeries.now_in_timezone 3000).astimezone 0).date)
      ∧ (∀ tp ∈ skewSeries.prices,
          tp.1.date
            ≠ ((skewSeries.now_in_timezone 3000).astimezone 0).date + 1)
      ∧ Electricity.prices_today skewSeries 3000 0 = []
      ∧ Electricity.prices_tomorrow skewSeries 3000 0 = [] := by
  have h1 : (⌊(1430 : ℚ) / 1440⌋ : ℤ) = 0 := by
    rw [Int.floor_eq_iff]
    norm_num
  have h2 : (⌊(3000 : ℚ) / 1440⌋ : ℤ) = 2 := by
    rw [Int.floor_eq_iff]
    norm_num
  have ha : ∀ tp ∈ skewSeries.prices,
      tp.1.date ≠ ((skewSeries.now_in_timezone 3000).astimezone 0).date := by
    norm_num [Electricity.now_in_timezone, datetime_now, Datetime.astimezone,
      Datetime.date, Datetime.instant, minutesPerDay, skewSeries,
      ratFloor_eq_intFloor, h1, h2]
  have hb : ∀ tp ∈ skewSeries.prices,
      tp.1.date ≠ ((skewSeries.now_in_timezone 3000).astimezone 0).date + 1 := by
    norm_num [Electricity.now_in_timezone, datetime_now, Datetime.astimezone,
      Datetime.date, Datetime.instant, minutesPerDay, skewSeries,
      ratFloor_eq_intFloor, h1, h2]
  exact ⟨ha, hb, (claim_c2_day_partition skewSeries 3000 0).2.2.1 ha,
    (claim_c2_day_partition skewSeries 3000 0).2.2.2 hb⟩

/-- Counterexample to C8 as stated: in `gapSeries` (one entry at midnight UTC
priced −1, reference timezone UTC) the frozen instant 05:00 is covered by no
entry's window, and `current_price` is indeed absent — but
`hours_priced_equal_or_lower` is 1, not 0, because the absent current price is
compared as 0 and today's single price −1 is ≤ 0. -/
theorem claim_c8_counterexample :
    (∀ tp ∈ gapSeries.prices,
        ¬ (tp.1.instant ≤ (gapSeries.now_in_timezone 300).instant
          ∧ (gapSeries.now_in_timezone 300).instant < tp.1.instant + resolution))
      ∧ gapSeries.current_price 300 0 = none
      ∧ gapSeries.hours_priced_equal_or_lower 300 0 ≠ 0 := by
  have h1 : (⌊(0 : ℚ) / 1440⌋ : ℤ) = 0 := by
    norm_num
  have h2 : (⌊(300 : ℚ) / 1440⌋ : ℤ) = 0 := by
    rw [Int.floor_eq_iff]
    norm_num
  refine ⟨?_, ?_, ?_⟩
  · norm_num [Electricity.now_in_timezone, datetime_now, Datetime.instant,
      gapSeries, resolution]
  · norm_num [Electricity.current_price, Electricity.price_at_time,
      timed_value, Electricity.now_in_timezone, datetime_now,
      Datetime.instant, Datetime.add_minutes, gapSeries]
  · norm_num [Electricity.hours_priced_equal_or_lower,
      Electricity.prices_today, Electricity.current_price,
      Electricity.price_at_time, timed_value, Electricity.now_in_timezone,
      datetime_now, Datetime.astimezone, Datetime.date, Datetime.instant,
      Datetime.add_minutes, minutesPerDay, gapSeries, py_or_zero,
      ratFloor_eq_intFloor, h1, h2]

/-- Claim C8, amended as the counterexample forces: when the current instant
is covered by no entry's window, `current_price` is absent, and
`hours_priced_equal_or_lower` equals the number of today's entries priced
≤ 0 (the absent current price is compared as zero) — hence it is 0 whenever
every entry of today's mapping has a positive price, and in particular when
today's mapping is empty, as in the spec's scenario C. -/
theorem claim_c8_gap (e : Electricity) (nowInstant localOffset : ℚ)
    (h : ∀ tp ∈ e.prices,
        ¬ (tp.1.instant ≤ (e.now_in_timezone nowInstant).instant
          ∧ (e.now_in_timezone nowInstant).instant
              < tp.1.instant + resolution)) :
    e.current_price nowInstant localOffset = none
      ∧ e.hours_priced_equal_or_lower nowInstant localOffset
          = (e.prices_today nowInstant localOffset).countP
              (fun tp => decide (tp.2 ≤ (0 : ℚ)))
      ∧ ((∀ tp ∈ e.prices_today nowInstant localOffset, 0 < tp.2) →
          e.hours_priced_equal_or_lower nowInstant localOffset = 0) := by
  have hnone : e.current_price nowInstant localOffset = none := by
    unfold Electricity.current_price
    rw [price_at_time_eq_find]
    have hfind : e.prices.reverse.find? (fun tp =>
        decide (tp.1.instant ≤ (e.now_in_timezone nowInstant).instant
          ∧ (e.now_in_timezone nowInstant).instant
              < tp.1.instant + resolution)) = none := by
      apply List.find?_eq_none.mpr
      intro tp htp
      simpa using h tp (List.mem_reverse.mp htp)
    rw [hfind]
    rfl
  refine ⟨hnone, ?_, ?_⟩
  · rw [hours_eq_countP, hnone]
    rfl
  · intro hpos
    rw [hours_eq_countP, hnone]
    apply List.countP_eq_zero.mpr
    intro tp htp
    have hp := hpos tp htp
    simp only [py_or_zero, decide_eq_true_eq]
    intro hle
    linarith

/-- Witness for C8 (amended): `sampleSeries` at instant 05:00 has a gap at
now, all of today's prices are positive, and the count is 0. -/
theorem claim_c8_witness :
    (∀ tp ∈ sampleSeries.prices,
        ¬ (tp.1.instant ≤ (sampleSeries.now_in_timezone 300).instant
          ∧ (sampleSeries.now_in_timezone 300).instant
              < tp.1.instant + resolution))
      ∧ (∀ tp ∈ sampleSeries.prices_today 300 0, 0 < tp.2)
      ∧ sampleSeries.current_price 300 0 = none
      ∧ sampleSeries.hours_priced_equal_or_lower 300 0 = 0 := by
  have h1 : (⌊(0 : ℚ) / 1440⌋ : ℤ) = 0 := by
    norm_num
  have h1b : (⌊(60 : ℚ) / 1440⌋ : ℤ) = 0 := by
    rw [Int.floor_eq_iff]
    norm_num
  have h2 : (⌊(300 : ℚ) / 1440⌋ : ℤ) = 0 := by
    rw [Int.floor_eq_iff]
    norm_num
  have hgap : ∀ tp ∈ sampleSeries.prices,
      ¬ (tp.1.instant ≤ (sampleSeries.now_in_timezone 300).instant
        ∧ (sampleSeries.now_in_timezone 300).instant
            < tp.1.instant + resolution) := by
    norm_num [Electricity.now_in_timezone, datetime_now, Datetime.instant,
      sampleSeries, resolution]
  have hpos : ∀ tp ∈ sampleSeries.prices_today 300 0, 0 < tp.2 := by
    norm_num [Electricity.prices_today, Electricity.now_in_timezone,
      datetime_now, Datetime.astimezone, Datetime.date, Datetime.instant,
      minutesPerDay, sampleSeries, ratFloor_eq_intFloor, h1, h1b, h2]
  exact ⟨hgap, hpos, (claim_c8_gap sampleSeries 300 0 hgap).1,
    (claim_c8_gap sampleSeries 300 0 hgap).2.2 hpos⟩

/-- Counterexample to C7 as stated: two input records sharing the timestamp
(midnight UTC) collapse into one dict entry, so `timestamp_prices` has 1 entry
while the input record list has 2. -/
theorem claim_c7_counterexample :
    (Electricity.from_dict
        [((⟨0, 0⟩ : Datetime), (1 : ℚ)), (⟨0, 0⟩, 2)] 0).timestamp_prices.length
      ≠ ([((⟨0, 0⟩ : Datetime), (1 : ℚ)), (⟨0, 0⟩, 2)]
          : List (Datetime × ℚ)).length := by
  norm_num [Electricity.from_dict, Electricity.timestamp_prices,
    Electricity.generate_timestamp_list, dict_insert, Datetime.instant]

/-- Claim C7, amended as the counterexample forces: when the input records'
timestamps are pairwise distinct instants (duplicate timestamps collapse under
dict construction), `timestamp_prices` of the constructed series is exactly
the input record list with each price rounded to 5 decimal places — in
particular it has exactly as many entries as the input record list, each
carrying the original timestamp. -/
theorem claim_c7_round_trip (records : List (Datetime × ℚ)) (tz : ℚ)
    (hdist : records.Pairwise (fun a b => a.1.instant ≠ b.1.instant)) :
    (Electricity.from_dict records tz).timestamp_prices
        = records.map (fun r => (r.1, pyround5 r.2))
      ∧ (Electricity.from_dict records tz).timestamp_prices.length
        = records.length := by
  have hp := from_dict_prices_of_pairwise records tz hdist
  constructor
  · simp only [Electricity.timestamp_prices,
      Electricity.generate_timestamp_list, hp]
  · simp only [Electricity.timestamp_prices,
      Electricity.generate_timestamp_list, hp, List.length_map]

/-- Witness for C7 (amended): two distinct-timestamp records round-trip. -/
theorem claim_c7_witness :
    ([((⟨0, 0⟩ : Datetime), (1 : ℚ)), (⟨60, 0⟩, 2)]
        : List (Datetime × ℚ)).Pairwise (fun a b => a.1.instant ≠ b.1.instant)
      ∧ (Electricity.from_dict
            [((⟨0, 0⟩ : Datetime), (1 : ℚ)), (⟨60, 0⟩, 2)] 0).timestamp_prices
          = [((⟨0, 0⟩ : Datetime), (1 : ℚ)), (⟨60, 0⟩, 2)].map
              (fun r => (r.1, pyround5 r.2))
      ∧ (Electricity.from_dict
            [((⟨0, 0⟩ : Datetime), (1 : ℚ)),
              (⟨60, 0⟩, 2)] 0).timestamp_prices.length = 2 := by
  have hdist : ([((⟨0, 0⟩ : Datetime), (1 : ℚ)), (⟨60, 0⟩, 2)]
      : List (Datetime × ℚ)).Pairwise
      (fun a b => a.1.instant ≠ b.1.instant) := by
    norm_num [Datetime.instant]
  refine ⟨hdist, (claim_c7_round_trip _ 0 hdist).1, ?_⟩
  rw [(claim_c7_round_trip _ 0 hdist).2]
  rfl

/-- The time reported for the day's minimum is the first key (in mapping
order) attaining the minimum value. -/
theorem get_pricetime_min_spec (l : List (Datetime × ℚ)) (hne : l ≠ []) :
    ∃ p ∈ l, get_pricetime_min l = some p.1
      ∧ (∀ q ∈ l, p.2 ≤ q.2)
      ∧ l.find? (fun q => decide (q.2 = p.2)) = some p := by
  cases l with
  | nil => exact absurd rfl hne
  | cons x xs =>
    obtain ⟨h1, h2⟩ := foldl_best_min xs x
    refine ⟨xs.foldl (fun best y => if y.2 < best.2 then y else best) x,
      ?_, ?_, ?_, ?_⟩
    · exact List.mem_of_find?_eq_some h2
    · rfl
    · exact h1
    · exact h2

/-- The time reported for the day's maximum is the first key (in mapping
order) attaining the maximum value. -/
theorem get_pricetime_max_spec (l : List (Datetime × ℚ)) (hne : l ≠ []) :
    ∃ p ∈ l, get_pricetime_max l = some p.1
      ∧ (∀ q ∈ l, q.2 ≤ p.2)
      ∧ l.find? (fun q => decide (q.2 = p.2)) = some p := by
  cases l with
  | nil => exact absurd rfl hne
  | cons x xs =>
    obtain ⟨h1, h2⟩ := foldl_best_max xs x
    refine ⟨xs.foldl (fun best y => if y.2 > best.2 then y else best) x,
      ?_, ?_, ?_, ?_⟩
    · exact List.mem_of_find?_eq_some h2
    · rfl
    · exact h1
    · exact h2

/-- Claim C10: on a constructed series (pairwise-distinct timestamps), each
time-of-extreme query, whenever its own day-partition is nonempty, returns the
earliest timestamp in the mapping's insertion order attaining the extreme
value: the returned key belongs to an entry whose price bounds all of that
day's prices and which is the first entry of that day-partition holding that
price.  Each of the four queries is conditioned only on its own partition, so
the today-queries are covered even when tomorrow's partition is empty (the
normal "no tomorrow data yet" state) and vice versa. -/
theorem claim_c10_extreme_ties (e : Electricity) (nowInstant localOffset : ℚ)
    (_hdist : e.prices.Pairwise (fun a b => a.1.instant ≠ b.1.instant)) :
    (e.prices_today nowInstant localOffset ≠ [] →
        ∃ p ∈ e.prices_today nowInstant localOffset,
          e.lowest_price_time_today nowInstant localOffset = some p.1
            ∧ (∀ q ∈ e.prices_today nowInstant localOffset, p.2 ≤ q.2)
            ∧ (e.prices_today nowInstant localOffset).find?
                (fun q => decide (q.2 = p.2)) = some p)
      ∧ (e.prices_today nowInstant localOffset ≠ [] →
          ∃ p ∈ e.prices_today nowInstant localOffset,
            e.highest_price_time_today nowInstant localOffset = some p.1
              ∧ (∀ q ∈ e.prices_today nowInstant localOffset, q.2 ≤ p.2)
              ∧ (e.prices_today nowInstant localOffset).find?
                  (fun q => decide (q.2 = p.2)) = some p)
      ∧ (e.prices_tomorrow nowInstant localOffset ≠ [] →
          ∃ p ∈ e.prices_tomorrow nowInstant localOffset,
            e.lowest_price_time_tomorrow nowInstant localOffset = some p.1
              ∧ (∀ q ∈ e.prices_tomorrow nowInstant localOffset, p.2 ≤ q.2)
              ∧ (e.prices_tomorrow nowInstant localOffset).find?
                  (fun q => decide (q.2 = p.2)) = some p)
      ∧ (e.prices_tomorrow nowInstant localOffset ≠ [] →
          ∃ p ∈ e.prices_tomorrow nowInstant localOffset,
            e.highest_price_time_tomorrow nowInstant localOffset = some p.1
              ∧ (∀ q ∈ e.prices_tomorrow nowInstant localOffset, q.2 ≤ p.2)
              ∧ (e.prices_tomorrow nowInstant localOffset).find?
                  (fun q => decide (q.2 = p.2)) = some p) := by
  refine ⟨?_, ?_, ?_, ?_⟩
  · intro ht
    simp only [Electricity.lowest_price_time_today]
    exact get_pricetime_min_spec _ ht
  · intro ht
    simp only [Electricity.highest_price_time_today]
    exact get_pricetime_max_spec _ ht
  · intro hm
    simp only [Electricity.lowest_price_time_tomorrow]
    exact get_pricetime_min_spec _ hm
  · intro hm
    simp only [Electricity.highest_price_time_tomorrow]
    exact get_pricetime_max_spec _ hm

/-- Witness for C10: `tieSeries` has tied minima today (3 at 01:00 and 02:00)
and tied maxima tomorrow (7 at 00:00 and 01:00), both day-partitions
nonempty. -/
theorem claim_c10_witness :
    tieSeries.prices.Pairwise (fun a b => a.1.instant ≠ b.1.instant)
      ∧ tieSeries.prices_today 0 0 ≠ []
      ∧ tieSeries.prices_tomorrow 0 0 ≠ []
      ∧ ((∃ p ∈ tieSeries.prices_today 0 0,
            tieSeries.lowest_price_time_today 0 0 = some p.1
              ∧ (∀ q ∈ tieSeries.prices_today 0 0, p.2 ≤ q.2)
              ∧ (tieSeries.prices_today 0 0).find?
                  (fun q => decide (q.2 = p.2)) = some p)
          ∧ (∃ p ∈ tieSeries.prices_today 0 0,
              tieSeries.highest_price_time_today 0 0 = some p.1
                ∧ (∀ q ∈ tieSeries.prices_today 0 0, q.2 ≤ p.2)
                ∧ (tieSeries.prices_today 0 0).find?
                    (fun q => decide (q.2 = p.2)) = some p)
          ∧ (∃ p ∈ tieSeries.prices_tomorrow 0 0,
              tieSeries.lowest_price_time_tomorrow 0 0 = some p.1
                ∧ (∀ q ∈ tieSeries.prices_tomorrow 0 0, p.2 ≤ q.2)
                ∧ (tieSeries.prices_tomorrow 0 0).find?
                    (fun q => decide (q.2 = p.2)) = some p)
          ∧ (∃ p ∈ tieSeries.prices_tomorrow 0 0,
              tieSeries.highest_price_time_tomorrow 0 0 = some p.1
                ∧ (∀ q ∈ tieSeries.prices_tomorrow 0 0, q.2 ≤ p.2)
                ∧ (tieSeries.prices_tomorrow 0 0).find?
                    (fun q => decide (q.2 = p.2)) = some p)) := by
  have h0 : (⌊(0 : ℚ) / 1440⌋ : ℤ) = 0 := by
    norm_num
  have h60 : (⌊(60 : ℚ) / 1440⌋ : ℤ) = 0 := by
    rw [Int.floor_eq_iff]
    norm_num
  have h120 : (⌊(120 : ℚ) / 1440⌋ : ℤ) = 0 := by
    rw [Int.floor_eq_iff]
    norm_num
  have h1440 : (⌊(1440 : ℚ) / 1440⌋ : ℤ) = 1 := by
    rw [Int.floor_eq_iff]
    norm_num
  have h1500 : (⌊(1500 : ℚ) / 1440⌋ : ℤ) = 1 := by
    rw [Int.floor_eq_iff]
    norm_num
  have hdist : tieSeries.prices.Pairwise
      (fun a b => a.1.instant ≠ b.1.instant) := by
    norm_num [tieSeries, Datetime.instant]
  have ht : tieSeries.prices_today 0 0 ≠ [] := by
    norm_num [Electricity.prices_today, Electricity.now_in_timezone,
      datetime_now, Datetime.astimezone, Datetime.date, Datetime.instant,
      minutesPerDay, tieSeries, ratFloor_eq_intFloor, h0, h60, h120, h1440,
      h1500]
    exact List.cons_ne_nil _ _
  have hm : tieSeries.prices_tomorrow 0 0 ≠ [] := by
    norm_num [Electricity.prices_tomorrow, Electricity.now_in_timezone,
      datetime_now, Datetime.astimezone, Datetime.add_minutes, Datetime.date,
      Datetime.instant, minutesPerDay, tieSeries, ratFloor_eq_intFloor, h0,
      h60, h120, h1440, h1500]
    exact List.cons_ne_nil _ _
  exact ⟨hdist, ht, hm,
    (claim_c10_extreme_ties tieSeries 0 0 hdist).1 ht,
    (claim_c10_extreme_ties tieSeries 0 0 hdist).2.1 ht,
    (claim_c10_extreme_ties tieSeries 0 0 hdist).2.2.1 hm,
    (claim_c10_extreme_ties tieSeries 0 0 hdist).2.2.2 hm⟩

end SpotHinta
